import Mathlib

/-!
Shallow embedding of the Bybit autobot webhook service (src/main.py) and
verification of its specification claims.

Modelling conventions:
* Python floats are modelled as exact rationals (`ℚ`); `round(x, 3)` is
  modelled as round-half-to-even at the third decimal, Python's rounding mode.
* The global `executed_signals : set` is modelled as a `List String` used
  purely through membership; insertion is `cons`.
* Network results (balance, price, order response) are passed to the webhook
  handler as explicit parameters; the handler records which external effects
  it performs in an `Action` trace.
* Python string operations (`upper`, `lower`, `strip`, `split`, `in`,
  f-string interpolation of ints) are modelled over `String.data` character
  lists with Python semantics (code-point-wise case mapping, lexicographic
  comparison by code point, non-overlapping left-to-right split).
-/

/-- Configured leverage multiplier (`LEVERAGE = 3`, main.py line 22). -/
def LEVERAGE : ℚ := 3

/-- Configured slippage tolerance (`SLIPPAGE = 0.0035`, main.py line 23). -/
def SLIPPAGE : ℚ := 35 / 10000

/-- The static entry-weight table (`weight_map`, main.py lines 30-39). -/
def weight_map : List (String × ℚ) :=
  [("Long 1", 70 / 100),
   ("Long 2", 10 / 100),
   ("Long 3", 10 / 100),
   ("Long 4", 10 / 100),
   ("Short 1", 30 / 100),
   ("Short 2", 40 / 100),
   ("Short 3", 20 / 100),
   ("Short 4", 10 / 100)]

/-- Python's `weight_map.get(order_id, 0)` (main.py line 96). -/
def weightLookup (order_id : String) : ℚ :=
  (weight_map.lookup order_id).getD 0

/-- Round-half-to-even at integer resolution: the rounding mode of Python's
built-in `round`. -/
def roundHalfEven (q : ℚ) : ℤ :=
  if Int.fract q < 1 / 2 then ⌊q⌋
  else if 1 / 2 < Int.fract q then ⌊q⌋ + 1
  else if ⌊q⌋ % 2 = 0 then ⌊q⌋ else ⌊q⌋ + 1

/-- Python's `round(q, 3)`: round half to even at the third decimal place. -/
def round3 (q : ℚ) : ℚ :=
  (roundHalfEven (q * 1000) : ℚ) / 1000

/-- The position sizer `calculate_qty` (main.py lines 95-99). -/
def calculate_qty (order_id : String) (balance price : ℚ) : ℚ :=
  let weight := weightLookup order_id
  let usdt_amount := balance * weight * LEVERAGE
  let adjusted_qty := usdt_amount / (price * (1 + SLIPPAGE))
  round3 adjusted_qty

theorem roundHalfEven_le_floor_add_one (q : ℚ) : roundHalfEven q ≤ ⌊q⌋ + 1 := by
  unfold roundHalfEven
  split_ifs <;> omega

theorem floor_le_roundHalfEven (q : ℚ) : ⌊q⌋ ≤ roundHalfEven q := by
  unfold roundHalfEven
  split_ifs <;> omega

theorem roundHalfEven_mono {a b : ℚ} (h : a ≤ b) :
    roundHalfEven a ≤ roundHalfEven b := by
  rcases lt_or_eq_of_le (Int.floor_mono h) with hf | hf
  · calc roundHalfEven a ≤ ⌊a⌋ + 1 := roundHalfEven_le_floor_add_one a
      _ ≤ ⌊b⌋ := by omega
      _ ≤ roundHalfEven b := floor_le_roundHalfEven b
  · have hfr : Int.fract a ≤ Int.fract b := by
      unfold Int.fract
      rw [hf] at *
      linarith
    unfold roundHalfEven
    rw [hf]
    split_ifs <;> first | omega | linarith

theorem round3_mono {a b : ℚ} (h : a ≤ b) : round3 a ≤ round3 b := by
  unfold round3
  have := roundHalfEven_mono (by linarith : a * 1000 ≤ b * 1000)
  have : (roundHalfEven (a * 1000) : ℚ) ≤ (roundHalfEven (b * 1000) : ℚ) := by
    exact_mod_cast this
  linarith

theorem roundHalfEven_eq_low {z : ℤ} {q : ℚ} (h1 : (z : ℚ) ≤ q)
    (h2 : q < (z : ℚ) + 1 / 2) : roundHalfEven q = z := by
  have hz : ⌊q⌋ = z := Int.floor_eq_iff.mpr ⟨h1, by linarith⟩
  have hfr : Int.fract q < 1 / 2 := by
    unfold Int.fract
    rw [hz]
    linarith
  unfold roundHalfEven
  rw [if_pos hfr, hz]

theorem roundHalfEven_eq_high {z : ℤ} {q : ℚ} (h1 : (z : ℚ) + 1 / 2 < q)
    (h2 : q < (z : ℚ) + 1) : roundHalfEven q = z + 1 := by
  have hz : ⌊q⌋ = z := Int.floor_eq_iff.mpr ⟨by linarith, by linarith⟩
  have hfr : 1 / 2 < Int.fract q := by
    unfold Int.fract
    rw [hz]
    linarith
  unfold roundHalfEven
  rw [if_neg (by linarith), if_pos hfr, hz]

theorem round3_zero : round3 0 = 0 := by
  unfold round3
  rw [zero_mul, roundHalfEven_eq_low (z := 0) (by norm_num) (by norm_num)]
  norm_num

theorem weightLookup_nonneg (order_id : String) : 0 ≤ weightLookup order_id := by
  unfold weightLookup weight_map
  simp only [List.lookup]
  repeat' split
  all_goals norm_num [Option.getD]

/-- Decimal digit to character, as Python renders integers. -/
def digitChar (d : ℕ) : Char := Char.ofNat (48 + d)

/-- Little-endian decimal digits of a natural number, with explicit fuel
(the fuel argument makes the recursion structural; any fuel at least the
number itself yields all digits). -/
def toDigitsRev : ℕ → ℕ → List ℕ
  | _, 0 => []
  | 0, _ + 1 => []
  | fuel + 1, n + 1 => ((n + 1) % 10) :: toDigitsRev fuel ((n + 1) / 10)

/-- Value of a little-endian decimal digit list. -/
def ofDigitsRev : List ℕ → ℕ
  | [] => 0
  | d :: rest => d + 10 * ofDigitsRev rest

/-- Python's `str` on a non-negative integer: its decimal numeral. -/
def natRepr (n : ℕ) : String :=
  if n = 0 then "0" else String.mk ((toDigitsRev n n).reverse.map digitChar)

/-- Python's `str` on an integer (f-string interpolation of an `int`). -/
def intRepr (n : ℤ) : String :=
  if n < 0 then "-" ++ natRepr n.natAbs else natRepr n.toNat

/-- Python's `int()` on a float: truncation toward zero. -/
def pyInt (q : ℚ) : ℤ := if 0 ≤ q then ⌊q⌋ else ⌈q⌉

/-- The deduplication key `f"{order_id}_{int(time.time())}"`
(main.py line 153). -/
def candleKey (order_id : String) (sec : ℤ) : String :=
  order_id ++ "_" ++ intRepr sec

/-- The duplicate-suppression check of main.py lines 153-156, as the spec's
`CheckAndMark`: build the key from the identifier and the current time;
if present report `true` (duplicate, skip); otherwise insert it and report
`false` (proceed). -/
def checkAndMark (executed_signals : List String) (order_id : String)
    (now : ℚ) : Bool × List String :=
  let candle_key := candleKey order_id (pyInt now)
  if candle_key ∈ executed_signals then (true, executed_signals)
  else (false, candle_key :: executed_signals)

theorem ofDigitsRev_toDigitsRev :
    ∀ fuel n, n ≤ fuel → ofDigitsRev (toDigitsRev fuel n) = n := by
  intro fuel
  induction fuel with
  | zero =>
    intro n hn
    interval_cases n
    rfl
  | succ fuel ih =>
    intro n hn
    match n with
    | 0 => rfl
    | m + 1 =>
      have hdiv : (m + 1) / 10 ≤ fuel := by
        have := Nat.div_le_self (m + 1) 10
        have : (m + 1) / 10 < m + 1 := Nat.div_lt_self (Nat.succ_pos m) (by norm_num)
        omega
      simp only [toDigitsRev, ofDigitsRev, ih _ hdiv]
      omega

theorem toDigitsRev_lt_ten : ∀ fuel n, ∀ d ∈ toDigitsRev fuel n, d < 10 := by
  intro fuel
  induction fuel with
  | zero =>
    intro n d hd
    cases n <;> simp [toDigitsRev] at hd
  | succ fuel ih =>
    intro n d hd
    match n with
    | 0 => simp [toDigitsRev] at hd
    | m + 1 =>
      simp only [toDigitsRev, List.mem_cons] at hd
      rcases hd with h | h
      · omega
      · exact ih _ _ h

theorem digitChar_inj {a b : ℕ} (ha : a < 10) (hb : b < 10)
    (h : digitChar a = digitChar b) : a = b := by
  interval_cases a <;> interval_cases b <;> revert h <;> decide

theorem map_digitChar_inj :
    ∀ l1 l2 : List ℕ, (∀ x ∈ l1, x < 10) → (∀ x ∈ l2, x < 10) →
      l1.map digitChar = l2.map digitChar → l1 = l2 := by
  intro l1
  induction l1 with
  | nil =>
    intro l2 _ _ h
    cases l2 with
    | nil => rfl
    | cons b bs => simp at h
  | cons a as ih =>
    intro l2 h1 h2 h
    cases l2 with
    | nil => simp at h
    | cons b bs =>
      simp only [List.map_cons, List.cons.injEq] at h
      have ha : a = b :=
        digitChar_inj (h1 a (by simp)) (h2 b (by simp)) h.1
      have has : as = bs :=
        ih bs (fun x hx => h1 x (by simp [hx])) (fun x hx => h2 x (by simp [hx])) h.2
      rw [ha, has]

theorem natRepr_inj {m n : ℕ} (h : natRepr m = natRepr n) : m = n := by
  unfold natRepr at h
  have key : ∀ a b : ℕ, a ≠ 0 → b ≠ 0 →
      String.mk ((toDigitsRev a a).reverse.map digitChar) =
        String.mk ((toDigitsRev b b).reverse.map digitChar) → a = b := by
    intro a b ha hb hs
    have hdata := congrArg String.data hs
    simp only at hdata
    have hrev := map_digitChar_inj _ _
      (fun x hx => toDigitsRev_lt_ten a a x (List.mem_reverse.mp hx))
      (fun x hx => toDigitsRev_lt_ten b b x (List.mem_reverse.mp hx)) hdata
    have hlist : toDigitsRev a a = toDigitsRev b b :=
      List.reverse_injective hrev
    have := congrArg ofDigitsRev hlist
    rwa [ofDigitsRev_toDigitsRev a a le_rfl, ofDigitsRev_toDigitsRev b b le_rfl] at this
  have zeroRepr : ∀ a : ℕ, a ≠ 0 →
      String.mk ((toDigitsRev a a).reverse.map digitChar) ≠ "0" := by
    intro a ha hs
    have hdata := congrArg String.data hs
    simp only at hdata
    have : (toDigitsRev a a).reverse = [0] := by
      have h0 : (['0'] : List Char) = [0].map digitChar := by decide
      rw [h0] at hdata
      exact map_digitChar_inj _ _
        (fun x hx => toDigitsRev_lt_ten a a x (List.mem_reverse.mp hx))
        (by intro x hx; simp at hx; omega) hdata
    have hlist : toDigitsRev a a = [0] := by
      have := congrArg List.reverse this
      simpa using this
    have := congrArg ofDigitsRev hlist
    rw [ofDigitsRev_toDigitsRev a a le_rfl] at this
    simp [ofDigitsRev] at this
    exact ha this
  by_cases hm : m = 0 <;> by_cases hn : n = 0
  · omega
  · rw [if_pos hm, if_neg hn] at h
    exact absurd h.symm (zeroRepr n hn)
  · rw [if_neg hm, if_pos hn] at h
    exact absurd h (zeroRepr m hm)
  · rw [if_neg hm, if_neg hn] at h
    exact key m n hm hn h

theorem intRepr_inj_of_nonneg {m n : ℤ} (hm : 0 ≤ m) (hn : 0 ≤ n)
    (h : intRepr m = intRepr n) : m = n := by
  unfold intRepr at h
  rw [if_neg (by omega), if_neg (by omega)] at h
  have := natRepr_inj h
  omega

theorem candleKey_inj_sec {order_id : String} {a b : ℤ} (ha : 0 ≤ a) (hb : 0 ≤ b)
    (h : candleKey order_id a = candleKey order_id b) : a = b := by
  unfold candleKey at h
  have hdata := congrArg String.data h
  simp only [String.data_append] at hdata
  have : (intRepr a).data = (intRepr b).data :=
    List.append_cancel_left hdata
  exact intRepr_inj_of_nonneg ha hb (String.ext this)

theorem pyInt_nonneg {t : ℚ} (ht : 0 ≤ t) : 0 ≤ pyInt t := by
  unfold pyInt
  rw [if_pos ht]
  exact Int.floor_nonneg.mpr ht

/-- Python's `str.upper()` (ASCII-relevant case mapping per character). -/
def pyUpper (s : String) : String := String.mk (s.data.map Char.toUpper)

/-- Python's `str.lower()`. -/
def pyLower (s : String) : String := String.mk (s.data.map Char.toLower)

/-- Python's `str.strip()`: remove leading and trailing whitespace. -/
def pyStrip (s : String) : String :=
  String.mk (((s.data.dropWhile Char.isWhitespace).reverse.dropWhile
    Char.isWhitespace).reverse)

/-- Python's `sub in s` substring containment. -/
def pyContains (sub s : String) : Prop := sub.data <:+: s.data

instance (sub s : String) : Decidable (pyContains sub s) :=
  List.decidableInfix sub.data s.data

/-- Python's `s.split(sep)` for a non-empty separator, over character lists:
non-overlapping, left-to-right.  The fuel argument (any value at least the
length of the list) makes the recursion structural. -/
def pySplitAux (sep : List Char) : ℕ → List Char → List (List Char)
  | _, [] => [[]]
  | 0, l => [l]
  | fuel + 1, c :: rest =>
    if sep.isPrefixOf (c :: rest) && !sep.isEmpty then
      [] :: pySplitAux sep fuel ((c :: rest).drop sep.length)
    else
      match pySplitAux sep fuel rest with
      | [] => [[c]]
      | g :: gs => (c :: g) :: gs

/-- Python's `s.split(sep)` for a non-empty separator. -/
def pySplit (sep s : String) : List String :=
  (pySplitAux sep.data s.data.length s.data).map String.mk

/-- Python's `lst[-1]` on the (always non-empty) result of `split`. -/
def pyLast (l : List String) : String := l.getLastD ""

/-- The order-identifier normalization of the webhook handler
(main.py lines 133-147): uppercase the signal; if it contains `"STEP"`,
take the trailing split segment as the step number and prefix the direction;
otherwise fall back to the explicit `order_id` field. -/
def resolve_order_id (signal_field raw_order_id : String) : String :=
  let signal := pyUpper signal_field
  if pyContains "STEP" signal then
    let step_num := pyStrip (pyLast (pySplit "STEP" signal))
    if pyContains "LONG" signal then "Long " ++ step_num
    else if pyContains "SHORT" signal then "Short " ++ step_num
    else raw_order_id
  else raw_order_id

/-- Lexicographic comparison of character lists by code point: Python's
string comparison. -/
def listLe : List Char → List Char → Bool
  | [], _ => true
  | _ :: _, [] => false
  | a :: as, b :: bs => if a < b then true else if b < a then false else listLe as bs

/-- Python's comparison of `(key, value)` string pairs, as used by
`sorted(params.items())`: lexicographic on the pair. -/
def pairLe (a b : String × String) : Bool :=
  if a.1 = b.1 then listLe a.2.data b.2.data else listLe a.1.data b.1.data

/-- Python's `sorted(params.items())` (main.py line 53): sort the parameter
pairs lexicographically. -/
def sortedParams (params : List (String × String)) : List (String × String) :=
  params.mergeSort pairLe

/-- The query serialization of main.py line 54:
sorted `key=value` pairs joined by `&`. -/
def queryString (params : List (String × String)) : String :=
  String.intercalate "&" ((sortedParams params).map (fun kv => kv.1 ++ "=" ++ kv.2))

/-- The signer `generate_signature` (main.py lines 52-55).  The stdlib
primitive `hmac.new(secret, query, sha256).hexdigest()` is external library
code, modelled as an explicit function argument `hmacSha256Hex` from the
secret and the serialized query to the hex digest. -/
def generate_signature (hmacSha256Hex : String → String → String)
    (secret : String) (params : List (String × String)) : String :=
  hmacSha256Hex secret (queryString params)

theorem listLe_total : ∀ a b, listLe a b || listLe b a := by
  intro a
  induction a with
  | nil =>
    intro b
    cases b <;> simp [listLe]
  | cons x xs ih =>
    intro b
    cases b with
    | nil => simp [listLe]
    | cons y ys =>
      simp only [listLe]
      rcases lt_trichotomy x y with h | h | h
      · simp [h]
      · subst h
        simpa [lt_irrefl] using ih ys
      · simp [h, lt_asymm h]

theorem listLe_antisymm : ∀ a b, listLe a b → listLe b a → a = b := by
  intro a
  induction a with
  | nil =>
    intro b _ hba
    cases b with
    | nil => rfl
    | cons y ys => simp [listLe] at hba
  | cons x xs ih =>
    intro b hab hba
    cases b with
    | nil => simp [listLe] at hab
    | cons y ys =>
      simp only [listLe] at hab hba
      rcases lt_trichotomy x y with h | h | h
      · simp [h, lt_asymm h] at hba
      · subst h
        simp only [lt_irrefl, if_false] at hab hba
        rw [ih ys hab hba]
      · simp [h, lt_asymm h] at hab

theorem listLe_trans : ∀ a b c, listLe a b → listLe b c → listLe a c := by
  intro a
  induction a with
  | nil => intro b c _ _; simp [listLe]
  | cons x xs ih =>
    intro b c hab hbc
    cases b with
    | nil => simp [listLe] at hab
    | cons y ys =>
      cases c with
      | nil => simp [listLe] at hbc
      | cons z zs =>
        simp only [listLe] at hab hbc ⊢
        rcases lt_trichotomy x y with hxy | hxy | hxy
        · rcases lt_trichotomy y z with hyz | hyz | hyz
          · simp [lt_trans hxy hyz]
          · subst hyz
            simp [hxy]
          · simp [hyz, lt_asymm hyz] at hbc
        · subst hxy
          rcases lt_trichotomy x z with hxz | hxz | hxz
          · simp [hxz]
          · subst hxz
            simp only [lt_irrefl, if_false] at hab hbc ⊢
            exact ih _ _ hab hbc
          · simp [hxz, lt_asymm hxz] at hbc
        · simp [hxy, lt_asymm hxy] at hab

theorem pairLe_total : ∀ a b, pairLe a b || pairLe b a := by
  intro a b
  unfold pairLe
  by_cases h : a.1 = b.1
  · simp [h, listLe_total]
  · simp [h, Ne.symm h, listLe_total]

theorem pairLe_antisymm : ∀ a b, pairLe a b → pairLe b a → a = b := by
  intro a b hab hba
  unfold pairLe at hab hba
  by_cases h : a.1 = b.1
  · rw [if_pos h] at hab
    rw [if_pos h.symm] at hba
    have h2 := listLe_antisymm _ _ hab hba
    have : a.2 = b.2 := String.ext h2
    exact Prod.ext h this
  · rw [if_neg h] at hab
    rw [if_neg (Ne.symm h)] at hba
    exact absurd (String.ext (listLe_antisymm _ _ hab hba)) h

theorem pairLe_trans : ∀ a b c, pairLe a b → pairLe b c → pairLe a c := by
  intro a b c hab hbc
  unfold pairLe at hab hbc ⊢
  by_cases h1 : a.1 = b.1 <;> by_cases h2 : b.1 = c.1
  · rw [if_pos h1] at hab
    rw [if_pos h2] at hbc
    rw [if_pos (h1.trans h2)]
    exact listLe_trans _ _ _ hab hbc
  · rw [if_pos h1] at hab
    rw [if_neg h2] at hbc
    rw [if_neg (by rw [h1]; exact h2), h1]
    exact hbc
  · rw [if_neg h1] at hab
    rw [if_pos h2] at hbc
    rw [if_neg (by rw [← h2]; exact h1), ← h2]
    exact hab
  · rw [if_neg h1] at hab
    rw [if_neg h2] at hbc
    by_cases h3 : a.1 = c.1
    · exfalso
      rw [h3] at hab
      exact h2 (String.ext (listLe_antisymm _ _ hbc hab))
    · rw [if_neg h3]
      exact listLe_trans _ _ _ hab hbc

theorem sortedParams_perm_invariant {p q : List (String × String)}
    (h : p.Perm q) : sortedParams p = sortedParams q := by
  unfold sortedParams
  have hperm : (p.mergeSort pairLe).Perm (q.mergeSort pairLe) :=
    ((List.mergeSort_perm p pairLe).trans h).trans (List.mergeSort_perm q pairLe).symm
  have hs1 := List.sorted_mergeSort
    (fun a b c => pairLe_trans a b c)
    (fun a b => pairLe_total a b) p
  have hs2 := List.sorted_mergeSort
    (fun a b c => pairLe_trans a b c)
    (fun a b => pairLe_total a b) q
  haveI : IsAntisymm (String × String) (fun a b => pairLe a b = true) :=
    ⟨fun a b => pairLe_antisymm a b⟩
  exact List.eq_of_perm_of_sorted hperm hs1 hs2

/-- The fields of a parsed webhook alert, after Python's
`data.get("signal", "")`, `data.get("order_action", "")`,
`data.get("order_id", "")` defaulting (main.py lines 133-135). -/
structure AlertData where
  signal : String
  order_action : String
  order_id : String
deriving DecidableEq, Repr

/-- Observable external effects the webhook handler performs, in order. -/
inductive Effect where
  | fetchBalance : Effect
  | fetchPrice : Effect
  | calcQty (order_id : String) (balance price : ℚ) : Effect
  | placeOrder (side : String) (qty : ℚ) : Effect
deriving DecidableEq, Repr

/-- Result of one webhook request: HTTP status, response body, the
deduplication set afterwards, and the trace of external effects. -/
structure WebhookResult where
  status : ℕ
  body : String
  state : List String
  trace : List Effect
deriving DecidableEq, Repr

/-- The webhook handler (main.py lines 121-183) as a pure step function.
`data` is the parse result of the request body (`none` = malformed JSON);
`executed_signals` the shared deduplication set; `now` the wall-clock time
`time.time()`; `balanceResult` what `get_wallet_balance()` returns;
`priceResult` what `get_current_price()` returns (`none` = fetch failure);
`orderResult` the order submission outcome (`none` = exception raised,
`some body` = response body returned).  Telegram notification is
fire-and-forget and not modelled. -/
def webhook (data : Option AlertData) (executed_signals : List String)
    (now : ℚ) (balanceResult : ℚ) (priceResult : Option ℚ)
    (orderResult : Option String) : WebhookResult :=
  match data with
  | none => ⟨400, "Invalid JSON", executed_signals, []⟩
  | some d =>
    let order_action := pyLower d.order_action
    let order_id := resolve_order_id d.signal d.order_id
    if order_action = "" ∨ order_id = "" then
      ⟨400, "Invalid webhook data", executed_signals, []⟩
    else
      let candle_key := candleKey order_id (pyInt now)
      if candle_key ∈ executed_signals then
        ⟨200, order_id ++ " skipped (duplicate second)", executed_signals, []⟩
      else
        let s1 := candle_key :: executed_signals
        let side := if order_action = "buy" then "buy" else "sell"
        if balanceResult = 0 then
          ⟨500, "Insufficient balance or failed to fetch", s1, [.fetchBalance]⟩
        else
          match priceResult with
          | none => ⟨500, "Price fetch failed", s1, [.fetchBalance, .fetchPrice]⟩
          | some price =>
            if price = 0 then
              ⟨500, "Price fetch failed", s1, [.fetchBalance, .fetchPrice]⟩
            else
              let qty := calculate_qty order_id balanceResult price
              match orderResult with
              | none =>
                ⟨500, "Order request failed", s1,
                  [.fetchBalance, .fetchPrice,
                   .calcQty order_id balanceResult price, .placeOrder side qty]⟩
              | some respBody =>
                ⟨200, respBody, s1,
                  [.fetchBalance, .fetchPrice,
                   .calcQty order_id balanceResult price, .placeOrder side qty]⟩

/-- C1: for every order identifier and every pair of calls to the
duplicate-suppression check (starting from a state not yet containing either
key), if the two wall-clock timestamps fall in the same integer second the
first call reports not-duplicate and inserts the key while the second reports
duplicate; for timestamps in different integer seconds both calls report
not-duplicate.  Hence at most one order executes per identifier per second. -/
theorem claim_C1 (s : List String) (order_id : String) (t1 t2 : ℚ)
    (h1 : 0 ≤ t1) (h2 : 0 ≤ t2)
    (hk1 : candleKey order_id (pyInt t1) ∉ s)
    (hk2 : candleKey order_id (pyInt t2) ∉ s) :
    (checkAndMark s order_id t1).1 = false ∧
    (checkAndMark s order_id t1).2 = candleKey order_id (pyInt t1) :: s ∧
    (pyInt t1 = pyInt t2 →
      (checkAndMark (checkAndMark s order_id t1).2 order_id t2).1 = true) ∧
    (pyInt t1 ≠ pyInt t2 →
      (checkAndMark (checkAndMark s order_id t1).2 order_id t2).1 = false) := by
  have hfirst : checkAndMark s order_id t1 =
      (false, candleKey order_id (pyInt t1) :: s) := by
    unfold checkAndMark
    simp [hk1]
  refine ⟨by rw [hfirst], by rw [hfirst], ?_, ?_⟩
  · intro hsame
    rw [hfirst]
    unfold checkAndMark
    rw [← hsame]
    simp
  · intro hdiff
    rw [hfirst]
    have hne : candleKey order_id (pyInt t2) ∉
        candleKey order_id (pyInt t1) :: s := by
      intro hmem
      rcases List.mem_cons.mp hmem with h | h
      · exact hdiff (candleKey_inj_sec (pyInt_nonneg h2) (pyInt_nonneg h1) h).symm
      · exact hk2 h
    unfold checkAndMark
    simp [hne]

theorem claim_C1_witness :
    (checkAndMark [] "Long 1" 0).1 = false ∧
    (checkAndMark (checkAndMark [] "Long 1" 0).2 "Long 1" (1 / 2)).1 = true := by
  have hfloor : ⌊(1 / 2 : ℚ)⌋ = 0 := Int.floor_eq_iff.mpr (by norm_num)
  have hsame : pyInt 0 = pyInt (1 / 2) := by
    unfold pyInt
    rw [if_pos (by norm_num), if_pos (by norm_num), hfloor]
    simp
  have h := claim_C1 [] "Long 1" 0 (1 / 2) (by norm_num) (by norm_num)
    (by simp) (by simp)
  exact ⟨h.1, h.2.2.1 hsame⟩

/-- C2: for every order identifier absent from the weight table, every balance
and every positive price, the computed order quantity is exactly 0. -/
theorem claim_C2 (order_id : String) (balance price : ℚ)
    (hlook : weight_map.lookup order_id = none) (hprice : 0 < price) :
    calculate_qty order_id balance price = 0 := by
  have hw : weightLookup order_id = 0 := by
    unfold weightLookup
    rw [hlook]
    rfl
  unfold calculate_qty
  simp only [hw, mul_zero, zero_mul, zero_div, round3_zero]

theorem claim_C2_witness :
    weight_map.lookup "Long 9" = none ∧ (0 : ℚ) < 2 ∧
      calculate_qty "Long 9" 5 2 = 0 :=
  ⟨by decide, by norm_num, claim_C2 "Long 9" 5 2 (by decide) (by norm_num)⟩

theorem calculate_qty_scenario : calculate_qty "Long 1" 1000 100 = 20927 / 1000 := by
  have hw : weightLookup "Long 1" = 70 / 100 := by
    simp [weightLookup, weight_map, List.lookup]
  unfold calculate_qty round3
  simp only [hw, LEVERAGE, SLIPPAGE]
  have harg : (1000 : ℚ) * (70 / 100) * 3 / (100 * (1 + 35 / 10000)) * 1000 =
      14000000 / 669 := by
    norm_num
  rw [harg, roundHalfEven_eq_high (z := 20926) (by norm_num) (by norm_num)]
  norm_num

/-- C3 (amended): with balance 1000, weight 0.70, leverage 3, price 100 and
slippage 0.0035, the quantity is `round(1000*0.70*3 / (100*1.0035), 3)`,
which equals 20.927 (not 20.930 as the claim states). -/
theorem claim_C3 :
    calculate_qty "Long 1" 1000 100 =
      round3 (1000 * (70 / 100) * 3 / (100 * (1 + 35 / 10000))) ∧
    calculate_qty "Long 1" 1000 100 = 20927 / 1000 := by
  constructor
  · have hw : weightLookup "Long 1" = 70 / 100 := by
      simp [weightLookup, weight_map, List.lookup]
    unfold calculate_qty
    simp only [hw, LEVERAGE, SLIPPAGE]
  · exact calculate_qty_scenario

/-- C3 counterexample: the scenario quantity differs from the claimed value
20.930. -/
theorem claim_C3_counterexample :
    calculate_qty "Long 1" 1000 100 ≠ 2093 / 100 := by
  rw [calculate_qty_scenario]
  norm_num

/-- C5: holding other inputs fixed, the computed quantity (after rounding) is
non-decreasing in balance, non-decreasing in the looked-up weight, and
non-increasing in price (for positive prices and non-negative balances, as
the data model requires of an account balance). -/
theorem claim_C5 :
    (∀ order_id b1 b2 p, b1 ≤ b2 → 0 < p →
      calculate_qty order_id b1 p ≤ calculate_qty order_id b2 p) ∧
    (∀ id1 id2 b p, weightLookup id1 ≤ weightLookup id2 → 0 ≤ b → 0 < p →
      calculate_qty id1 b p ≤ calculate_qty id2 b p) ∧
    (∀ order_id b p1 p2, 0 ≤ b → 0 < p1 → p1 ≤ p2 →
      calculate_qty order_id b p2 ≤ calculate_qty order_id b p1) := by
  have hk : (0 : ℚ) < 1 + SLIPPAGE := by norm_num [SLIPPAGE]
  have hL : (0 : ℚ) ≤ LEVERAGE := by norm_num [LEVERAGE]
  refine ⟨?_, ?_, ?_⟩
  · intro oid b1 b2 p hb hp
    unfold calculate_qty
    apply round3_mono
    have hnum : b1 * weightLookup oid * LEVERAGE ≤ b2 * weightLookup oid * LEVERAGE :=
      mul_le_mul_of_nonneg_right
        (mul_le_mul_of_nonneg_right hb (weightLookup_nonneg oid)) hL
    exact (div_le_div_iff_of_pos_right (mul_pos hp hk)).mpr hnum
  · intro id1 id2 b p hw hb hp
    unfold calculate_qty
    apply round3_mono
    have hnum : b * weightLookup id1 * LEVERAGE ≤ b * weightLookup id2 * LEVERAGE :=
      mul_le_mul_of_nonneg_right (mul_le_mul_of_nonneg_left hw hb) hL
    exact (div_le_div_iff_of_pos_right (mul_pos hp hk)).mpr hnum
  · intro oid b p1 p2 hb hp1 hp12
    unfold calculate_qty
    apply round3_mono
    have hX : 0 ≤ b * weightLookup oid * LEVERAGE :=
      mul_nonneg (mul_nonneg hb (weightLookup_nonneg oid)) hL
    exact div_le_div_of_nonneg_left hX (mul_pos hp1 hk)
      (mul_le_mul_of_nonneg_right hp12 hk.le)

theorem claim_C5_witness :
    calculate_qty "Long 1" 100 50 ≤ calculate_qty "Long 1" 200 50 :=
  claim_C5.1 "Long 1" 100 200 50 (by norm_num) (by norm_num)

/-- C4: the signature is invariant under any reordering of the input
parameter pairs, for every secret and every HMAC primitive, because signing
serializes the parameters sorted lexicographically by key (ties by value)
before joining them as `key=value` with `&`. -/
theorem claim_C4 (hmacSha256Hex : String → String → String) (secret : String)
    (p q : List (String × String)) (h : p.Perm q) :
    generate_signature hmacSha256Hex secret p =
      generate_signature hmacSha256Hex secret q := by
  unfold generate_signature queryString
  rw [sortedParams_perm_invariant h]

theorem claim_C4_witness :
    ([("timestamp", "1"), ("apiKey", "k"), ("accountType", "UNIFIED")].Perm
      [("accountType", "UNIFIED"), ("apiKey", "k"), ("timestamp", "1")]) ∧
    generate_signature (fun _ q => q) "secret"
        [("timestamp", "1"), ("apiKey", "k"), ("accountType", "UNIFIED")] =
      generate_signature (fun _ q => q) "secret"
        [("accountType", "UNIFIED"), ("apiKey", "k"), ("timestamp", "1")] :=
  ⟨by decide, claim_C4 (fun _ q => q) "secret" _ _ (by decide)⟩

/-- C6: the signal `"ENTRY LONG STEP 1"` resolves to the identifier
`"Long 1"` whose weight is 0.70; in general, when the uppercased signal
contains `"STEP"` the identifier is the direction prefix (`"Long "` or
`"Short "`) followed by the stripped trailing split segment, and when it
does not, the handler falls back to the explicit `order_id` field. -/
theorem claim_C6 :
    (∀ raw, resolve_order_id "ENTRY LONG STEP 1" raw = "Long 1") ∧
    weightLookup "Long 1" = 70 / 100 ∧
    (∀ sig raw, pyContains "STEP" (pyUpper sig) → pyContains "LONG" (pyUpper sig) →
      resolve_order_id sig raw =
        "Long " ++ pyStrip (pyLast (pySplit "STEP" (pyUpper sig)))) ∧
    (∀ sig raw, pyContains "STEP" (pyUpper sig) → ¬ pyContains "LONG" (pyUpper sig) →
      pyContains "SHORT" (pyUpper sig) →
      resolve_order_id sig raw =
        "Short " ++ pyStrip (pyLast (pySplit "STEP" (pyUpper sig)))) ∧
    (∀ sig raw, ¬ pyContains "STEP" (pyUpper sig) →
      resolve_order_id sig raw = raw) := by
  refine ⟨fun raw => rfl, by simp [weightLookup, weight_map, List.lookup],
    ?_, ?_, ?_⟩
  · intro sig raw hstep hlong
    simp only [resolve_order_id]
    rw [if_pos hstep, if_pos hlong]
  · intro sig raw hstep hlong hshort
    simp only [resolve_order_id]
    rw [if_pos hstep, if_neg hlong, if_pos hshort]
  · intro sig raw hstep
    simp only [resolve_order_id]
    rw [if_neg hstep]

theorem claim_C6_witness :
    pyContains "STEP" (pyUpper "ENTRY SHORT STEP 2") ∧
    resolve_order_id "ENTRY SHORT STEP 2" "fallback" =
      "Short " ++ pyStrip (pyLast (pySplit "STEP" (pyUpper "ENTRY SHORT STEP 2"))) :=
  ⟨by decide, claim_C6.2.2.2.1 "ENTRY SHORT STEP 2" "fallback"
    (by decide) (by decide) (by decide)⟩

/-- C7: when the balance fetch returns 0 (for a well-formed, non-duplicate
request), the handler responds 500 with the insufficient-balance error and
performs no price fetch, no quantity computation and no order submission. -/
theorem claim_C7 (d : AlertData) (s : List String) (now : ℚ)
    (priceResult : Option ℚ) (orderResult : Option String)
    (ha : pyLower d.order_action ≠ "")
    (hid : resolve_order_id d.signal d.order_id ≠ "")
    (hdup : candleKey (resolve_order_id d.signal d.order_id) (pyInt now) ∉ s) :
    (webhook (some d) s now 0 priceResult orderResult).status = 500 ∧
    (webhook (some d) s now 0 priceResult orderResult).body =
      "Insufficient balance or failed to fetch" ∧
    Effect.fetchPrice ∉ (webhook (some d) s now 0 priceResult orderResult).trace ∧
    (∀ oid b p, Effect.calcQty oid b p ∉
      (webhook (some d) s now 0 priceResult orderResult).trace) ∧
    (∀ sd q, Effect.placeOrder sd q ∉
      (webhook (some d) s now 0 priceResult orderResult).trace) := by
  have hr : webhook (some d) s now 0 priceResult orderResult =
      ⟨500, "Insufficient balance or failed to fetch",
        candleKey (resolve_order_id d.signal d.order_id) (pyInt now) :: s,
        [.fetchBalance]⟩ := by
    simp only [webhook]
    rw [if_neg (not_or.mpr ⟨ha, hid⟩), if_neg hdup]
    simp
  rw [hr]
  exact ⟨rfl, rfl, by simp, fun oid b p => by simp, fun sd q => by simp⟩

theorem claim_C7_witness :
    (webhook (some ⟨"", "buy", "Long 1"⟩) [] 0 0 none none).status = 500 ∧
    (webhook (some ⟨"", "buy", "Long 1"⟩) [] 0 0 none none).body =
      "Insufficient balance or failed to fetch" := by
  have h := claim_C7 ⟨"", "buy", "Long 1"⟩ [] 0 none none
    (by decide) (by decide) (by simp)
  exact ⟨h.1, h.2.1⟩

/-- C8 (amended): whenever the webhook handler invokes the quantity
computation, the price argument came from a successful price fetch and is
non-null and non-zero (the handler aborts with a 500 response on a missing
or falsy price), so the division by `price * (1 + slippage)` inside the
computation never divides by zero.  (The code's guard `if not price` does
not exclude negative prices, so positivity is not guaranteed.) -/
theorem claim_C8 (data : Option AlertData) (s : List String) (now : ℚ)
    (balanceResult : ℚ) (priceResult : Option ℚ) (orderResult : Option String)
    (oid : String) (b p : ℚ)
    (hmem : Effect.calcQty oid b p ∈
      (webhook data s now balanceResult priceResult orderResult).trace) :
    priceResult = some p ∧ p ≠ 0 ∧ p * (1 + SLIPPAGE) ≠ 0 := by
  match data with
  | none => simp [webhook] at hmem
  | some d =>
    simp only [webhook] at hmem
    by_cases hvalid : pyLower d.order_action = "" ∨
        resolve_order_id d.signal d.order_id = ""
    · rw [if_pos hvalid] at hmem
      simp at hmem
    · rw [if_neg hvalid] at hmem
      by_cases hdup : candleKey (resolve_order_id d.signal d.order_id)
          (pyInt now) ∈ s
      · rw [if_pos hdup] at hmem
        simp at hmem
      · rw [if_neg hdup] at hmem
        by_cases hbal : balanceResult = 0
        · rw [if_pos hbal] at hmem
          simp at hmem
        · rw [if_neg hbal] at hmem
          match priceResult with
          | none => simp at hmem
          | some price =>
            dsimp only at hmem
            by_cases hp : price = 0
            · rw [if_pos hp] at hmem
              simp at hmem
            · rw [if_neg hp] at hmem
              have hfin : p = price := by
                match orderResult with
                | none =>
                  simp at hmem
                  exact hmem.2.2
                | some rb =>
                  simp at hmem
                  exact hmem.2.2
              subst hfin
              exact ⟨rfl, hp, mul_ne_zero hp (by norm_num [SLIPPAGE])⟩

theorem claim_C8_witness :
    (some 100 : Option ℚ) = some 100 ∧ (100 : ℚ) ≠ 0 ∧
      (100 : ℚ) * (1 + SLIPPAGE) ≠ 0 :=
  claim_C8 (some ⟨"", "buy", "Long 1"⟩) [] 0 1000 (some 100) (some "ok")
    "Long 1" 1000 100 (by decide)

/-- C8 counterexample: the handler invokes the quantity computation with the
non-positive price -1 (which passes the `if not price` guard), refuting the
claim that the price argument is always positive. -/
theorem claim_C8_counterexample :
    Effect.calcQty "Long 1" 1000 (-1) ∈
      (webhook (some ⟨"", "buy", "Long 1"⟩) [] 0 1000 (some (-1))
        (some "ok")).trace ∧
    ¬ (0 < (-1 : ℚ)) :=
  ⟨by decide, by norm_num⟩

theorem webhook_skip (d : AlertData) (s : List String) (now : ℚ)
    (balanceResult : ℚ) (priceResult : Option ℚ) (orderResult : Option String)
    (ha : pyLower d.order_action ≠ "")
    (hid : resolve_order_id d.signal d.order_id ≠ "")
    (hmem : candleKey (resolve_order_id d.signal d.order_id) (pyInt now) ∈ s) :
    webhook (some d) s now balanceResult priceResult orderResult =
      ⟨200, resolve_order_id d.signal d.order_id ++ " skipped (duplicate second)",
        s, []⟩ := by
  simp only [webhook]
  rw [if_neg (not_or.mpr ⟨ha, hid⟩), if_pos hmem]

theorem webhook_fail_500 (d : AlertData) (s : List String) (now : ℚ)
    (balanceResult : ℚ) (priceResult : Option ℚ) (orderResult : Option String)
    (ha : pyLower d.order_action ≠ "")
    (hid : resolve_order_id d.signal d.order_id ≠ "")
    (hdup : candleKey (resolve_order_id d.signal d.order_id) (pyInt now) ∉ s)
    (hfail : balanceResult = 0 ∨ priceResult = none ∨ priceResult = some 0 ∨
      orderResult = none) :
    (webhook (some d) s now balanceResult priceResult orderResult).status = 500 ∧
    (webhook (some d) s now balanceResult priceResult orderResult).state =
      candleKey (resolve_order_id d.signal d.order_id) (pyInt now) :: s := by
  simp only [webhook]
  rw [if_neg (not_or.mpr ⟨ha, hid⟩), if_neg hdup]
  by_cases hbal : balanceResult = 0
  · rw [if_pos hbal]
    exact ⟨rfl, rfl⟩
  · rw [if_neg hbal]
    match priceResult with
    | none => exact ⟨rfl, rfl⟩
    | some price =>
      by_cases hp : price = 0
      · dsimp only
        rw [if_pos hp]
        exact ⟨rfl, rfl⟩
      · dsimp only
        rw [if_neg hp]
        rcases hfail with h | h | h | h
        · exact absurd h hbal
        · exact absurd h (by simp)
        · exact absurd (Option.some.injEq price 0 ▸ h) (by simpa using hp)
        · subst h
          exact ⟨rfl, rfl⟩

/-- C9: the deduplication entry is inserted before the balance fetch and is
never removed on failure: a well-formed, non-duplicate request that aborts
with a server error (balance 0, missing or falsy price, or order-submission
exception) leaves its key in the set, so an identical alert re-sent within
the same second is answered with a skip response and performs no external
effect at all. -/
theorem claim_C9 (d : AlertData) (s : List String) (now : ℚ)
    (balanceResult : ℚ) (priceResult : Option ℚ) (orderResult : Option String)
    (ha : pyLower d.order_action ≠ "")
    (hid : resolve_order_id d.signal d.order_id ≠ "")
    (hdup : candleKey (resolve_order_id d.signal d.order_id) (pyInt now) ∉ s)
    (hfail : balanceResult = 0 ∨ priceResult = none ∨ priceResult = some 0 ∨
      orderResult = none) :
    (webhook (some d) s now balanceResult priceResult orderResult).status = 500 ∧
    candleKey (resolve_order_id d.signal d.order_id) (pyInt now) ∈
      (webhook (some d) s now balanceResult priceResult orderResult).state ∧
    (∀ t2 b2 p2 o2, pyInt t2 = pyInt now →
      (webhook (some d)
          (webhook (some d) s now balanceResult priceResult orderResult).state
          t2 b2 p2 o2).status = 200 ∧
      (webhook (some d)
          (webhook (some d) s now balanceResult priceResult orderResult).state
          t2 b2 p2 o2).body =
        resolve_order_id d.signal d.order_id ++ " skipped (duplicate second)" ∧
      (webhook (some d)
          (webhook (some d) s now balanceResult priceResult orderResult).state
          t2 b2 p2 o2).trace = [] ∧
      (webhook (some d)
          (webhook (some d) s now balanceResult priceResult orderResult).state
          t2 b2 p2 o2).state =
        (webhook (some d) s now balanceResult priceResult orderResult).state) := by
  obtain ⟨hst, hstate⟩ := webhook_fail_500 d s now balanceResult priceResult
    orderResult ha hid hdup hfail
  refine ⟨hst, by rw [hstate]; exact List.mem_cons_self _ _, ?_⟩
  intro t2 b2 p2 o2 hsame
  have hmem2 : candleKey (resolve_order_id d.signal d.order_id) (pyInt t2) ∈
      (webhook (some d) s now balanceResult priceResult orderResult).state := by
    rw [hstate, hsame]
    exact List.mem_cons_self _ _
  have hs := webhook_skip d _ t2 b2 p2 o2 ha hid hmem2
  rw [hs]
  exact ⟨rfl, rfl, rfl, rfl⟩

theorem claim_C9_witness :
    (webhook (some ⟨"", "buy", "Long 1"⟩) [] 0 0 none none).status = 500 ∧
    (webhook (some ⟨"", "buy", "Long 1"⟩)
        (webhook (some ⟨"", "buy", "Long 1"⟩) [] 0 0 none none).state
        0 5 (some 5) (some "ok")).status = 200 ∧
    (webhook (some ⟨"", "buy", "Long 1"⟩)
        (webhook (some ⟨"", "buy", "Long 1"⟩) [] 0 0 none none).state
        0 5 (some 5) (some "ok")).trace = [] := by
  have h := claim_C9 ⟨"", "buy", "Long 1"⟩ [] 0 0 none none
    (by decide) (by decide) (by simp) (Or.inl rfl)
  have h2 := h.2.2 0 5 (some 5) (some "ok") rfl
  exact ⟨h.1, h2.1, h2.2.2.1⟩

/-- C10: for a well-formed, non-duplicate request, the handler never rejects
the order action for being outside the set containing buy and sell (the
response status is 200 or 500, never 400), and every submitted order's side
is buy exactly when the lowercased order action equals buy, and sell for
every other non-empty value. -/
theorem claim_C10 (d : AlertData) (s : List String) (now : ℚ)
    (balanceResult : ℚ) (priceResult : Option ℚ) (orderResult : Option String)
    (ha : pyLower d.order_action ≠ "")
    (hid : resolve_order_id d.signal d.order_id ≠ "")
    (hdup : candleKey (resolve_order_id d.signal d.order_id) (pyInt now) ∉ s) :
    ((webhook (some d) s now balanceResult priceResult orderResult).status = 200 ∨
     (webhook (some d) s now balanceResult priceResult orderResult).status = 500) ∧
    (∀ sd q, Effect.placeOrder sd q ∈
        (webhook (some d) s now balanceResult priceResult orderResult).trace →
      sd = if pyLower d.order_action = "buy" then "buy" else "sell") := by
  simp only [webhook]
  rw [if_neg (not_or.mpr ⟨ha, hid⟩), if_neg hdup]
  by_cases hbal : balanceResult = 0
  · rw [if_pos hbal]
    exact ⟨Or.inr rfl, fun sd q hmem => by simp at hmem⟩
  · rw [if_neg hbal]
    match priceResult with
    | none => exact ⟨Or.inr rfl, fun sd q hmem => by simp at hmem⟩
    | some price =>
      by_cases hp : price = 0
      · dsimp only
        rw [if_pos hp]
        exact ⟨Or.inr rfl, fun sd q hmem => by simp at hmem⟩
      · dsimp only
        rw [if_neg hp]
        match orderResult with
        | none =>
          refine ⟨Or.inr rfl, fun sd q hmem => ?_⟩
          simp at hmem
          exact hmem.1
        | some rb =>
          refine ⟨Or.inl rfl, fun sd q hmem => ?_⟩
          simp at hmem
          exact hmem.1

theorem claim_C10_witness :
    ((webhook (some ⟨"", "close", "Long 1"⟩) [] 0 1000 (some 100)
        (some "ok")).status = 200 ∨
     (webhook (some ⟨"", "close", "Long 1"⟩) [] 0 1000 (some 100)
        (some "ok")).status = 500) ∧
    ("sell" : String) =
      (if pyLower (AlertData.mk "" "close" "Long 1").order_action = "buy"
        then "buy" else "sell") := by
  have h := claim_C10 ⟨"", "close", "Long 1"⟩ [] 0 1000 (some 100) (some "ok")
    (by decide) (by decide) (by simp)
  refine ⟨h.1, ?_⟩
  apply h.2 "sell" (calculate_qty "Long 1" 1000 100)
  rw [show webhook (some ⟨"", "close", "Long 1"⟩) [] 0 1000 (some 100) (some "ok") =
      ⟨200, "ok", [candleKey "Long 1" (pyInt 0)],
        [.fetchBalance, .fetchPrice, .calcQty "Long 1" 1000 100,
         .placeOrder "sell" (calculate_qty "Long 1" 1000 100)]⟩ from rfl]
  simp
